import Mathlib

/-!
Verification of the ConverterTool core (Excel Add-in converter).

Shallow embedding of the core modules:
 - src/src/core/MappingProcessor.ts  (applyMappings, applyMappingsToTables)
 - src/src/core/NunjucksRenderer.ts  (renderOutput, renderAllOutputs,
   resolveFilename, getMimeType, the date filter and formatDate)
 - src/src/core/DataOrchestrator.ts  (validateTemplate,
   validateDataAvailability, previewOutput)

JavaScript rows are open maps from string keys to scalar values; we model a
row as a total function from field names to a JavaScript-value type whose
vUndefined constructor stands for an absent key.  Numeric values are
modelled as integers (the repository only moves scalar cell values around;
no arithmetic is performed on them).  The Nunjucks engine is an external
library, modelled as an abstract rendering function from a template string
and a rendering context to either a rendered string or a thrown error
message.
-/

/-- A JavaScript scalar value as stored in a table row or mapping table:
null, undefined (also: absent key), string, number (modelled as an
integer) or boolean. -/
inductive JSValue where
  | vNull
  | vUndefined
  | vStr (s : String)
  | vNum (n : Int)
  | vBool (b : Bool)
deriving DecidableEq, Repr

/-- JavaScript `String(v)` coercion on the modelled scalar values. -/
def jsToString : JSValue → String
  | JSValue.vNull => "null"
  | JSValue.vUndefined => "undefined"
  | JSValue.vStr s => s
  | JSValue.vNum n => toString n
  | JSValue.vBool b => cond b ("true") ("false")

/-- A table row: an open mapping from field name to value.  An absent
column reads as vUndefined, exactly as a missing key reads as undefined in
JavaScript. -/
abbrev TableRow := String → JSValue

/-- The row with no columns at all. -/
def emptyRow : TableRow := fun _ => JSValue.vUndefined

/-- `row[k] = v` as a functional update (the model of one property write
into the shallow copy). -/
def TableRow.set (row : TableRow) (k : String) (v : JSValue) : TableRow :=
  fun q => if q = k then v else row q

/-- Association-list lookup, the model of `obj[key]` on a JS record whose
keys are strings: first binding wins, absent key gives none (undefined). -/
def lookupAssoc {α : Type} : List (String × α) → String → Option α
  | [], _ => none
  | (k, v) :: rest, q => if k = q then some v else lookupAssoc rest q

/-- One value-mapping rule (src/src/types, interface ValueMapping):
source column, destination field, lookup table, default. -/
structure ValueMapping where
  column : String
  outputField : String
  map : List (String × JSValue)
  default : JSValue
deriving DecidableEq, Repr

/-- Loop body of applyMappings (MappingProcessor.ts lines 26-48): apply one
rule.  The source value is read from the ORIGINAL row `row`; the write goes
into the accumulating copy `acc`. -/
def applyRule (row : TableRow) (acc : TableRow) (m : ValueMapping) : TableRow :=
  let sourceValue := row m.column
  if sourceValue = JSValue.vNull ∨ sourceValue = JSValue.vUndefined then
    acc.set m.outputField m.default
  else
    match lookupAssoc m.map (jsToString sourceValue) with
    | some mappedValue => acc.set m.outputField mappedValue
    | none => acc.set m.outputField m.default

/-- applyMappings (MappingProcessor.ts lines 18-52).  Empty rule list:
return the input list itself.  Otherwise map each row to a shallow copy on
which every rule is applied in declaration order. -/
def applyMappings (rows : List TableRow) (mappings : List ValueMapping) : List TableRow :=
  if mappings.isEmpty then rows
  else rows.map (fun row => mappings.foldl (applyRule row) row)

/-- applyMappingsToTables (MappingProcessor.ts lines 61-73).  Tables are a
list of (key, rows) entries in Object.entries order; the per-table rule
lists are a partial map, none modelling an undefined entry. -/
def applyMappingsToTables (tablesData : List (String × List TableRow))
    (tableMappings : String → Option (List ValueMapping)) :
    List (String × List TableRow) :=
  tablesData.map (fun p =>
    (p.1, match tableMappings p.1 with
          | some mappings => applyMappings p.2 mappings
          | none => p.2))

/-- The value rule `m` produces for an original row: the default when the
source value is null/undefined, otherwise the lookup of the stringified
source value in the rule's table, falling back to the default. -/
def ruleValue (row : TableRow) (m : ValueMapping) : JSValue :=
  let sourceValue := row m.column
  if sourceValue = JSValue.vNull ∨ sourceValue = JSValue.vUndefined then
    m.default
  else
    (lookupAssoc m.map (jsToString sourceValue)).getD m.default

/-- The last rule in declaration order whose destination field is `k`. -/
def lastMatchingRule (mappings : List ValueMapping) (k : String) : Option ValueMapping :=
  mappings.reverse.find? (fun m => m.outputField == k)

theorem applyRule_eq (row acc : TableRow) (m : ValueMapping) :
    applyRule row acc m = acc.set m.outputField (ruleValue row m) := by
  unfold applyRule ruleValue
  by_cases h : row m.column = JSValue.vNull ∨ row m.column = JSValue.vUndefined
  · simp [h]
  · simp only [h, if_false]
    cases hl : lookupAssoc m.map (jsToString (row m.column)) <;> simp [hl]

theorem TableRow.set_same (row : TableRow) (k : String) (v : JSValue) :
    row.set k v k = v := by
  simp [TableRow.set]

theorem TableRow.set_other (row : TableRow) (f k : String) (v : JSValue)
    (h : k ≠ f) : row.set f v k = row k := by
  simp [TableRow.set, h]

/-- Characterisation of the rule-application fold: at every key, the result
is the value of the last rule (in declaration order) targeting that key,
computed from the original row, and the accumulator's value when no rule
targets the key. -/
theorem foldl_applyRule (row : TableRow) (mappings : List ValueMapping)
    (acc : TableRow) (k : String) :
    (mappings.foldl (applyRule row) acc) k =
      match lastMatchingRule mappings k with
      | some m => ruleValue row m
      | none => acc k := by
  induction mappings generalizing acc with
  | nil => simp [lastMatchingRule]
  | cons m rest ih =>
    simp only [List.foldl_cons]
    rw [ih]
    unfold lastMatchingRule
    simp only [List.reverse_cons]
    rw [List.find?_append]
    cases hfind : rest.reverse.find? (fun q => q.outputField == k) with
    | some q => simp [hfind, Option.orElse]
    | none =>
      simp only [hfind, Option.orElse, Option.none_orElse]
      rw [applyRule_eq]
      by_cases hk : m.outputField == k
      · have hk' : k = m.outputField := (beq_iff_eq.mp hk).symm
        simp [List.find?, hk, ← hk', TableRow.set_same]
      · have hk' : k ≠ m.outputField := by
          intro hcon
          exact hk (beq_iff_eq.mpr hcon.symm)
        simp [List.find?, hk, TableRow.set_other _ _ _ _ hk']

theorem applyMappings_length (rows : List TableRow) (mappings : List ValueMapping) :
    (applyMappings rows mappings).length = rows.length := by
  unfold applyMappings
  cases h : mappings.isEmpty <;> simp

theorem applyMappings_getD (rows : List TableRow) (mappings : List ValueMapping)
    (hne : mappings.isEmpty = false) (i : Nat) (hi : i < rows.length) (k : String) :
    (applyMappings rows mappings).getD i emptyRow k =
      match lastMatchingRule mappings k with
      | some m => ruleValue (rows.getD i emptyRow) m
      | none => rows.getD i emptyRow k := by
  have h1 : applyMappings rows mappings
      = rows.map (fun row => mappings.foldl (applyRule row) row) := by
    simp [applyMappings, hne]
  rw [h1]
  cases hget : rows.get? i with
  | none =>
    have := List.get?_eq_none.mp hget
    omega
  | some r =>
    have h2 : (rows.map (fun row => mappings.foldl (applyRule row) row)).get? i
        = some (mappings.foldl (applyRule r) r) := by
      rw [List.get?_map, hget]
      rfl
    rw [List.getD_eq_get?, h2, List.getD_eq_get?, hget]
    simp only [Option.getD_some]
    exact foldl_applyRule r mappings r k

/-- C1: with a non-empty rule list, applyMappings keeps the row count and,
for each row and each field, the output field holds the value computed by
the last rule (in declaration order) whose destination is that field —
reading its source column from the original, pre-mapping row, taking the
rule's default when the source value is null/undefined or its stringified
form is absent from the rule's lookup table, and the mapped value when it
is present; fields targeted by no rule are unchanged.  In particular, when
two rules share a destination field, the last one in declaration order
wins. -/
theorem applyMappings_spec (rows : List TableRow) (mappings : List ValueMapping)
    (hne : mappings ≠ []) :
    (applyMappings rows mappings).length = rows.length ∧
    ∀ i, i < rows.length → ∀ k : String,
      (applyMappings rows mappings).getD i emptyRow k =
        match lastMatchingRule mappings k with
        | some m => ruleValue (rows.getD i emptyRow) m
        | none => rows.getD i emptyRow k := by
  refine ⟨applyMappings_length rows mappings, ?_⟩
  intro i hi k
  exact applyMappings_getD rows mappings (by simpa [List.isEmpty_iff] using hne) i hi k

/-- A concrete row for the witnesses: column "status" holds "A". -/
def rowW : TableRow :=
  fun k => if k = "status" then JSValue.vStr ("A") else JSValue.vUndefined

/-- A concrete mapping rule for the witnesses: status -> statusText via
the table A -> Active, default Unknown. -/
def mapW : ValueMapping :=
  ⟨("status"), ("statusText"), [(("A"), JSValue.vStr ("Active"))], JSValue.vStr ("Unknown")⟩

theorem applyMappings_spec_witness :
    ([mapW] : List ValueMapping) ≠ [] ∧
    ((applyMappings [rowW] [mapW]).length = [rowW].length ∧
     ∀ i, i < [rowW].length → ∀ k : String,
       (applyMappings [rowW] [mapW]).getD i emptyRow k =
         match lastMatchingRule [mapW] k with
         | some m => ruleValue ([rowW].getD i emptyRow) m
         | none => [rowW].getD i emptyRow k) :=
  ⟨by simp, applyMappings_spec [rowW] [mapW] (by simp)⟩

/-- C6: applyMappings writes only into a fresh copy of each row (the
embedding is purely functional, so input rows are never mutated; the
returned rows are fresh values); the row count is preserved and, in every
output row, every field that is no rule's destination field equals the
corresponding field of the input row. -/
theorem applyMappings_frame (rows : List TableRow) (mappings : List ValueMapping) :
    (applyMappings rows mappings).length = rows.length ∧
    ∀ i, i < rows.length → ∀ k : String,
      (∀ m ∈ mappings, m.outputField ≠ k) →
      (applyMappings rows mappings).getD i emptyRow k = rows.getD i emptyRow k := by
  refine ⟨applyMappings_length rows mappings, ?_⟩
  intro i hi k hk
  cases hne : mappings.isEmpty with
  | true =>
    have : mappings = [] := List.isEmpty_iff.mp hne
    subst this
    simp [applyMappings]
  | false =>
    rw [applyMappings_getD rows mappings hne i hi k]
    have hnone : lastMatchingRule mappings k = none := by
      unfold lastMatchingRule
      rw [List.find?_eq_none]
      intro m hm
      have : m ∈ mappings := List.mem_reverse.mp hm
      simpa using hk m this
    simp [hnone]

theorem applyMappings_frame_witness :
    (0 : Nat) < [rowW].length ∧
    (∀ m ∈ [mapW], m.outputField ≠ "status") ∧
    (applyMappings [rowW] [mapW]).getD 0 emptyRow ("status")
      = [rowW].getD 0 emptyRow ("status") :=
  ⟨by decide, by decide,
   (applyMappings_frame [rowW] [mapW]).2 0 (by decide) ("status") (by decide)⟩

/-- C7: an empty rule list makes applyMappings the identity (the input
list is returned as such), and applyMappingsToTables keeps every table key
in place and passes every table whose key has no rule list through
unchanged. -/
theorem applyMappings_empty_identity :
    (∀ rows : List TableRow, applyMappings rows [] = rows) ∧
    (∀ (tablesData : List (String × List TableRow))
       (tableMappings : String → Option (List ValueMapping)),
      (applyMappingsToTables tablesData tableMappings).map Prod.fst
        = tablesData.map Prod.fst ∧
      ∀ i, i < tablesData.length →
        tableMappings ((tablesData.getD i (("", []))).1) = none →
        (applyMappingsToTables tablesData tableMappings).getD i (("", []))
          = tablesData.getD i (("", []))) := by
  refine ⟨fun rows => rfl, ?_⟩
  intro tablesData tableMappings
  constructor
  · simp [applyMappingsToTables]
  · intro i hi hmaps
    cases hget : tablesData.get? i with
    | none =>
      have := List.get?_eq_none.mp hget
      omega
    | some entry =>
      have hd : tablesData.getD i (("", [])) = entry := by
        rw [List.getD_eq_get?, hget]
        rfl
      rw [hd] at hmaps
      have h2 : (applyMappingsToTables tablesData tableMappings).get? i
          = some (entry.1, entry.2) := by
        unfold applyMappingsToTables
        rw [List.get?_map, hget]
        simp [hmaps]
      rw [List.getD_eq_get?, h2, hd]
      rfl

/-- A concrete one-table data set for the witnesses. -/
def tablesW : List (String × List TableRow) := [(("t1"), [rowW])]

theorem applyMappings_empty_identity_witness :
    applyMappings [rowW] [] = [rowW] ∧
    (applyMappingsToTables tablesW (fun _ => none)).getD 0 (("", []))
      = tablesW.getD 0 (("", [])) :=
  ⟨applyMappings_empty_identity.1 [rowW],
   (applyMappings_empty_identity.2 tablesW (fun _ => none)).2 0 (by decide) rfl⟩

/-- An output definition (src/src/types, interface OutputConfig): filename
template and content template. -/
structure OutputConfig where
  filename : String
  template : String
deriving DecidableEq, Repr

/-- A rendered output (src/src/types, interface RenderedOutput). -/
structure RenderedOutput where
  name : String
  filename : String
  content : String
  mimeType : String
deriving DecidableEq, Repr

/-- The full template context built by the orchestrator (src/src/types,
interface TemplateContext): globals, table data by key, timestamp. -/
structure TemplateContext where
  globals : List (String × JSValue)
  data : List (String × List TableRow)
  currentdatetime : String

/-- A JavaScript object passed to env.renderString: the fields actually
present on the objects the renderer builds.  `data` and `currentdatetime`
are optional because resolveFilename passes an object without `data` (and
validateTemplate passes one without `currentdatetime`). -/
structure RenderCtx where
  globals : List (String × JSValue)
  data : Option (List (String × List TableRow))
  currentdatetime : Option String

/-- The Nunjucks engine is an external library; we model the configured
environment's renderString as an abstract function from template string
and context object to either the rendered string or a thrown error's
message. -/
abbrev Env := String → RenderCtx → Except String String

/-- render (NunjucksRenderer.ts lines 27-29): renderString on the full
context. -/
def render (env : Env) (template : String) (context : TemplateContext) :
    Except String String :=
  env template ⟨context.globals, some context.data, some context.currentdatetime⟩

/-- resolveFilename (NunjucksRenderer.ts lines 165-173): renderString on a
restricted context object holding only globals and currentdatetime. -/
def resolveFilename (env : Env) (filename : String) (context : TemplateContext) :
    Except String String :=
  env filename ⟨context.globals, none, some context.currentdatetime⟩

/-- The characters of a list, split at every occurrence of the separator,
mirroring JavaScript String.prototype.split with a one-character string
separator (as used by getMimeType): always at least one piece, an empty
piece between adjacent separators and at the ends. -/
def jsSplit (sep : Char) : List Char → List (List Char)
  | [] => [[]]
  | c :: rest =>
    let r := jsSplit sep rest
    if c = sep then [] :: r
    else
      match r with
      | [] => [[c]]
      | h :: t => (c :: h) :: t

/-- The static extension-to-MIME table of getMimeType
(NunjucksRenderer.ts lines 202-211). -/
def mimeTypes (ext : String) : Option String :=
  match ext with
  | "json" => some ("application/json")
  | "xml" => some ("application/xml")
  | "csv" => some ("text/csv")
  | "txt" => some ("text/plain")
  | "html" => some ("text/html")
  | "md" => some ("text/markdown")
  | "yaml" => some ("text/yaml")
  | "yml" => some ("text/yaml")
  | _ => none

/-- getMimeType (NunjucksRenderer.ts lines 199-214):
filename.split(".").pop(), lowercased, looked up in the static table with
default "text/plain".  (ASCII lowercasing; filenames here are ASCII.) -/
def getMimeType (filename : String) : String :=
  let ext := String.mk (((jsSplit ('.') filename.data).getLastD []).map Char.toLower)
  (mimeTypes ext).getD ("text/plain")

/-- renderOutput (NunjucksRenderer.ts lines 37-53): resolve the filename
against the restricted context, render the content against the full
context, derive the MIME type from the resolved filename; name is the
filename. -/
def renderOutput (env : Env) (output : OutputConfig) (context : TemplateContext) :
    Except String RenderedOutput := do
  let filename ← resolveFilename env output.filename context
  let content ← render env output.template context
  pure ⟨filename, filename, content, getMimeType filename⟩

/-- The wrapped message thrown by renderAllOutputs when one output fails
(NunjucksRenderer.ts lines 72-76). -/
def renderErrorMessage (name message : String) : String :=
  "Error rendering output \"" ++ name ++ "\": " ++ message

/-- renderAllOutputs (NunjucksRenderer.ts lines 61-80): iterate the outputs
in declared (Object.entries) order; on success overwrite each result's
name with the output key and accumulate; on the first failure throw the
wrapped error, discarding everything. -/
def renderAllOutputs (env : Env) (outputs : List (String × OutputConfig))
    (context : TemplateContext) : Except String (List RenderedOutput) :=
  match outputs with
  | [] => Except.ok []
  | (name, output) :: rest =>
    match renderOutput env output context with
    | Except.ok rendered =>
      match renderAllOutputs env rest context with
      | Except.ok results => Except.ok (⟨name, rendered.filename, rendered.content, rendered.mimeType⟩ :: results)
      | Except.error e => Except.error e
    | Except.error e => Except.error (renderErrorMessage name e)

/-- The successful result of rendering one rendered output, with its name
overwritten by the output key (the `rendered.name = name` assignment); the
error branch is never reached under the success hypothesis of the theorem
using it. -/
def renderedWithKey (env : Env) (context : TemplateContext)
    (p : String × OutputConfig) : RenderedOutput :=
  match renderOutput env p.2 context with
  | Except.ok r => ⟨p.1, r.filename, r.content, r.mimeType⟩
  | Except.error _ => ⟨p.1, "", "", ""⟩

theorem renderAllOutputs_ok (env : Env) (context : TemplateContext) :
    ∀ outputs : List (String × OutputConfig),
      (∀ p ∈ outputs, ∃ r, renderOutput env p.2 context = Except.ok r) →
      renderAllOutputs env outputs context
        = Except.ok (outputs.map (renderedWithKey env context)) := by
  intro outputs
  induction outputs with
  | nil => intro _; rfl
  | cons q rest ih =>
    intro h
    obtain ⟨r, hr⟩ := h q (List.mem_cons_self q rest)
    obtain ⟨name, output⟩ := q
    have hrest := ih (fun p hp => h p (List.mem_cons_of_mem _ hp))
    simp only [renderAllOutputs, hr, hrest, List.map_cons]
    have : renderedWithKey env context (name, output)
        = ⟨name, r.filename, r.content, r.mimeType⟩ := by
      simp [renderedWithKey, hr]
    rw [this]

theorem renderAllOutputs_err (env : Env) (context : TemplateContext) :
    ∀ (pre : List (String × OutputConfig)) (name : String) (output : OutputConfig)
      (post : List (String × OutputConfig)) (msg : String),
      (∀ p ∈ pre, ∃ r, renderOutput env p.2 context = Except.ok r) →
      renderOutput env output context = Except.error msg →
      renderAllOutputs env (pre ++ (name, output) :: post) context
        = Except.error (renderErrorMessage name msg) := by
  intro pre
  induction pre with
  | nil =>
    intro name output post msg _ herr
    simp only [List.nil_append, renderAllOutputs, herr]
  | cons q pre' ih =>
    intro name output post msg h herr
    obtain ⟨r, hr⟩ := h q (List.mem_cons_self q pre')
    obtain ⟨qname, qout⟩ := q
    have hrest := ih name output post msg (fun p hp => h p (List.mem_cons_of_mem _ hp)) herr
    simp only [List.cons_append, renderAllOutputs, hr, List.append_eq, hrest]

/-- C2: renderAllOutputs is fail-fast.  If every output before some failing
output renders, and that output's render fails with some message, the whole
call fails with exactly the wrapped message "Error rendering output
\x22key\x22: message" (which contains the failing output's key and the
underlying message), and no list of already-rendered outputs is returned.
When every output renders, the call returns the outputs in the map's
declared order, each result being its rendered output with the name
overwritten by the output key. -/
theorem renderAllOutputs_spec (env : Env) (outputs : List (String × OutputConfig))
    (context : TemplateContext) :
    ((∀ p ∈ outputs, ∃ r, renderOutput env p.2 context = Except.ok r) →
      renderAllOutputs env outputs context
        = Except.ok (outputs.map (renderedWithKey env context))) ∧
    (∀ (pre : List (String × OutputConfig)) (name : String) (output : OutputConfig)
       (post : List (String × OutputConfig)) (msg : String),
      outputs = pre ++ (name, output) :: post →
      (∀ p ∈ pre, ∃ r, renderOutput env p.2 context = Except.ok r) →
      renderOutput env output context = Except.error msg →
      renderAllOutputs env outputs context
        = Except.error (renderErrorMessage name msg)) := by
  constructor
  · exact renderAllOutputs_ok env context outputs
  · intro pre name output post msg hsplit hpre herr
    rw [hsplit]
    exact renderAllOutputs_err env context pre name output post msg hpre herr

/-- A concrete engine for the witnesses: it fails (as on a Nunjucks syntax
error) exactly on the template string "BOOM" and otherwise echoes the
template string. -/
def envW : Env := fun template _ =>
  if template = "BOOM" then Except.error ("syntax error")
  else Except.ok template

/-- A concrete context for the witnesses. -/
def ctxW : TemplateContext :=
  ⟨[(("project"), JSValue.vStr ("Acme"))], [(("t1"), [rowW])], ("2024-01-05_10-00-00")⟩

/-- Witness outputs: the first renders, the second's template fails. -/
def outGood : OutputConfig := ⟨("a.json"), ("hello")⟩

def outBad : OutputConfig := ⟨("b.json"), ("BOOM")⟩

theorem renderAllOutputs_spec_witness :
    renderAllOutputs envW [(("a"), outGood), (("b"), outBad)] ctxW
      = Except.error (renderErrorMessage ("b") ("syntax error")) :=
  (renderAllOutputs_spec envW [(("a"), outGood), (("b"), outBad)] ctxW).2
    [(("a"), outGood)] ("b") outBad [] ("syntax error") rfl
    (by
      intro p hp
      have hp' : p = (("a"), outGood) := by simpa using hp
      exact ⟨⟨("a.json"), ("a.json"), ("hello"), ("application/json")⟩, by rw [hp']; rfl⟩)
    (by rfl)

/-- C3: the filename is resolved against a restricted context holding only
globals and currentdatetime, so two contexts agreeing on globals and
currentdatetime but with arbitrarily different table data resolve every
filename identically; in particular two successful renderOutput calls on
such contexts agree on the resolved filename. -/
theorem resolveFilename_restricted (env : Env) (output : OutputConfig)
    (c1 c2 : TemplateContext) (hg : c1.globals = c2.globals)
    (hd : c1.currentdatetime = c2.currentdatetime) :
    resolveFilename env output.filename c1 = resolveFilename env output.filename c2 ∧
    (∀ r1 r2, renderOutput env output c1 = Except.ok r1 →
      renderOutput env output c2 = Except.ok r2 → r1.filename = r2.filename) := by
  have hres : resolveFilename env output.filename c1
      = resolveFilename env output.filename c2 := by
    unfold resolveFilename
    rw [hg, hd]
  refine ⟨hres, ?_⟩
  intro r1 r2 h1 h2
  unfold renderOutput at h1 h2
  cases hf1 : resolveFilename env output.filename c1 with
  | error e => rw [hf1] at h1; simp [Bind.bind, Except.bind] at h1
  | ok fn =>
    rw [hf1] at h1
    rw [hres] at hf1
    rw [hf1] at h2
    cases hc1 : render env output.template c1 with
    | error e => rw [hc1] at h1; simp [Bind.bind, Except.bind] at h1
    | ok content1 =>
      cases hc2 : render env output.template c2 with
      | error e => rw [hc2] at h2; simp [Bind.bind, Except.bind] at h2
      | ok content2 =>
        rw [hc1] at h1
        rw [hc2] at h2
        simp only [Bind.bind, Except.bind, pure, Except.pure] at h1 h2
        cases h1
        cases h2
        rfl

/-- A context for the C3 witness that differs from ctxW only in its table
data. -/
def ctxW2 : TemplateContext :=
  ⟨[(("project"), JSValue.vStr ("Acme"))], [], ("2024-01-05_10-00-00")⟩

theorem resolveFilename_restricted_witness :
    resolveFilename envW outGood.filename ctxW
      = resolveFilename envW outGood.filename ctxW2 ∧
    (∀ r1 r2, renderOutput envW outGood ctxW = Except.ok r1 →
      renderOutput envW outGood ctxW2 = Except.ok r2 → r1.filename = r2.filename) :=
  resolveFilename_restricted envW outGood ctxW ctxW2 rfl rfl

theorem jsSplit_ne_nil (sep : Char) (cs : List Char) : jsSplit sep cs ≠ [] := by
  cases cs with
  | nil => simp [jsSplit]
  | cons c rest =>
    unfold jsSplit
    by_cases h : c = sep
    · simp [h]
    · simp only [h, if_false]
      cases jsSplit sep rest <;> simp

theorem jsSplit_of_not_mem (sep : Char) (cs : List Char) (h : sep ∉ cs) :
    jsSplit sep cs = [cs] := by
  induction cs with
  | nil => rfl
  | cons c rest ih =>
    have hc : c ≠ sep := fun hcon => h (hcon ▸ List.mem_cons_self c rest)
    have hrest : sep ∉ rest := fun hcon => h (List.mem_cons_of_mem c hcon)
    unfold jsSplit
    simp only [hc, if_false, ih hrest]

theorem jsSplit_length_of_mem (sep : Char) (cs : List Char) (h : sep ∈ cs) :
    2 ≤ (jsSplit sep cs).length := by
  induction cs with
  | nil => cases h
  | cons c rest ih =>
    unfold jsSplit
    by_cases hc : c = sep
    · simp only [hc, if_true, List.length_cons]
      have := jsSplit_ne_nil sep rest
      have : 1 ≤ (jsSplit sep rest).length := by
        cases hq : jsSplit sep rest with
        | nil => exact absurd hq this
        | cons a b => simp
      omega
    · have hrest : sep ∈ rest := by
        cases List.mem_cons.mp h with
        | inl h1 => exact absurd h1.symm hc
        | inr h2 => exact h2
      have h2 := ih hrest
      simp only [hc, if_false]
      cases hq : jsSplit sep rest with
      | nil => exact absurd hq (jsSplit_ne_nil sep rest)
      | cons a b =>
        rw [hq] at h2
        simpa using h2

/-- Modelled from the spec (wording of the amended C5): the text after the
final occurrence of the separator, or the whole list when the separator
does not occur. -/
def suffixAfterLast (sep : Char) : List Char → List Char
  | [] => []
  | c :: rest =>
    if sep ∈ rest then suffixAfterLast sep rest
    else if c = sep then rest
    else c :: rest

theorem jsSplit_getLast? (sep : Char) (cs : List Char) :
    (jsSplit sep cs).getLast? = some (suffixAfterLast sep cs) := by
  induction cs with
  | nil => rfl
  | cons c rest ih =>
    unfold jsSplit suffixAfterLast
    by_cases hc : c = sep
    · simp only [hc, if_true]
      by_cases hm : sep ∈ rest
      · simp only [hm, if_true]
        cases hq : jsSplit sep rest with
        | nil => exact absurd hq (jsSplit_ne_nil sep rest)
        | cons a b =>
          rw [hq] at ih
          rw [List.getLast?_cons_cons, ih]
      · rw [jsSplit_of_not_mem sep rest hm]
        rw [jsSplit_of_not_mem sep rest hm] at ih
        simp only [hm, if_false, if_true]
        simpa using ih
    · simp only [hc, if_false]
      cases hq : jsSplit sep rest with
      | nil => exact absurd hq (jsSplit_ne_nil sep rest)
      | cons h t =>
        cases t with
        | nil =>
          have hm : sep ∉ rest := by
            intro hmem
            have := jsSplit_length_of_mem sep rest hmem
            rw [hq] at this
            simp at this
          have : jsSplit sep rest = [rest] := jsSplit_of_not_mem sep rest hm
          rw [hq] at this
          have hrest : h = rest := by simpa using this
          subst hrest
          simp [hm, hc]
        | cons t0 tt =>
          have hm : sep ∈ rest := by
            by_contra hmem
            have := jsSplit_of_not_mem sep rest hmem
            rw [hq] at this
            simp at this
          rw [hq] at ih
          rw [List.getLast?_cons_cons] at ih
          simp only [hm, if_true]
          rw [List.getLast?_cons_cons]
          exact ih

/-- Modelled from the spec (amended claim): MIME type from the lowercased
text after the final dot — the entire filename when it contains no dot —
via the static table, default text/plain. -/
def getMimeTypeSpec (filename : String) : String :=
  (mimeTypes (String.mk ((suffixAfterLast ('.') filename.data).map Char.toLower))).getD
    ("text/plain")

/-- C5 counterexample: a filename with no dot at all is not mapped to the
default text/plain; its entire name acts as the extension, so the bare
filename "json" yields application/json. -/
theorem getMimeType_no_dot_counterexample :
    getMimeType ("json") = "application/json" ∧
    ('.') ∉ ("json").data ∧
    ("application/json" : String) ≠ "text/plain" := by
  refine ⟨rfl, by decide, by decide⟩

/-- C5 amended: for every filename the MIME type is obtained by lowercasing
the text after the final '.' — the entire filename when it contains no
'.' — and mapping it through the static table json, xml, csv, txt, html,
md, yaml, yml; any segment not in the table yields the default
text/plain. -/
theorem getMimeType_eq_spec : ∀ filename : String, getMimeType filename = getMimeTypeSpec filename := by
  intro filename
  unfold getMimeType getMimeTypeSpec
  have h1 : (jsSplit ('.') filename.data).getLastD []
      = suffixAfterLast ('.') filename.data := by
    rw [List.getLastD_eq_getLast?, jsSplit_getLast? ('.') filename.data]
    rfl
  rw [h1]

/-- JS String.prototype.indexOf for a string pattern, over character lists:
the first position where the pattern occurs (an empty pattern occurs at
position 0), none when it does not occur. -/
def firstIndexOf : List Char → List Char → Option Nat
  | [], pat => if pat.isPrefixOf ([] : List Char) then some 0 else none
  | c :: t, pat =>
    if pat.isPrefixOf (c :: t) then some 0
    else (firstIndexOf t pat).map (· + 1)

/-- JS String.prototype.replace with a string pattern (as chained in
formatDate, NunjucksRenderer.ts lines 187-193): replace only the FIRST
occurrence of the pattern, return the string unchanged when the pattern
does not occur. -/
def replaceFirst (s pat repl : String) : String :=
  match firstIndexOf s.data pat.data with
  | none => s
  | some i => String.mk (s.data.take i ++ repl.data ++ s.data.drop (i + pat.data.length))

theorem isPrefixOf_append_self (l rest : List Char) : l.isPrefixOf (l ++ rest) = true := by
  induction l with
  | nil => simp
  | cons c t ih => simp [List.isPrefixOf_cons₂, ih]

theorem firstIndexOf_prefix (cs pat : List Char) (h : pat.isPrefixOf cs = true) :
    firstIndexOf cs pat = some 0 := by
  cases cs <;> simp [firstIndexOf, h]

theorem firstIndexOf_not_head (p : Char) (pr cs : List Char) (h : ∀ c ∈ cs, c ≠ p) :
    firstIndexOf cs (p :: pr) = none := by
  induction cs with
  | nil => rfl
  | cons c t ih =>
    have hc : c ≠ p := h c (List.mem_cons_self c t)
    have hpre : (p :: pr).isPrefixOf (c :: t) = false := by
      rw [List.isPrefixOf_cons₂]
      have : (p == c) = false := beq_eq_false_iff_ne.mpr (fun hpc => hc hpc.symm)
      rw [this, Bool.false_and]
    simp [firstIndexOf, hpre, ih (fun x hx => h x (List.mem_cons_of_mem _ hx))]

theorem firstIndexOf_append (p : Char) (pr a b : List Char) (h : ∀ c ∈ a, c ≠ p) :
    firstIndexOf (a ++ b) (p :: pr) = (firstIndexOf b (p :: pr)).map (· + a.length) := by
  induction a with
  | nil =>
    cases hfb : firstIndexOf b (p :: pr) <;> simp [hfb]
  | cons c t ih =>
    have hc : c ≠ p := h c (List.mem_cons_self c t)
    have hpre : (p :: pr).isPrefixOf (c :: (t ++ b)) = false := by
      rw [List.isPrefixOf_cons₂]
      have : (p == c) = false := beq_eq_false_iff_ne.mpr (fun hpc => hc hpc.symm)
      rw [this, Bool.false_and]
    have ih' := ih (fun x hx => h x (List.mem_cons_of_mem _ hx))
    have hcons : firstIndexOf ((c :: t) ++ b) (p :: pr)
        = (firstIndexOf (t ++ b) (p :: pr)).map (· + 1) := by
      rw [List.cons_append]
      show (if (p :: pr).isPrefixOf (c :: (t ++ b)) then some 0
            else (firstIndexOf (t ++ b) (p :: pr)).map (· + 1))
          = (firstIndexOf (t ++ b) (p :: pr)).map (· + 1)
      rw [hpre]
      simp
    rw [hcons, ih']
    cases hfb : firstIndexOf b (p :: pr) with
    | none => simp
    | some i =>
      simp only [Option.map_some', List.length_cons]
      congr 1

/-- Replacing a pattern whose first occurrence is exactly at the marked
position: everything before the marker is free of the pattern's head
character. -/
theorem replaceFirst_at_marker (s pat repl : String) (a : List Char) (p : Char)
    (pr rest : List Char) (hs : s.data = a ++ p :: (pr ++ rest))
    (hpat : pat.data = p :: pr) (ha : ∀ c ∈ a, c ≠ p) :
    replaceFirst s pat repl = String.mk (a ++ repl.data ++ rest) := by
  unfold replaceFirst
  rw [hs, hpat]
  have hself : (p :: pr).isPrefixOf (p :: (pr ++ rest)) = true := by
    have := isPrefixOf_append_self (p :: pr) rest
    simpa using this
  have h1 : firstIndexOf (a ++ p :: (pr ++ rest)) (p :: pr) = some a.length := by
    rw [firstIndexOf_append p pr a _ ha, firstIndexOf_prefix _ _ hself]
    simp
  rw [h1]
  have htake : (a ++ p :: (pr ++ rest)).take a.length = a := List.take_left a _
  have hsplit : a ++ p :: (pr ++ rest) = (a ++ p :: pr) ++ rest := by simp
  have hdrop : (a ++ p :: (pr ++ rest)).drop (a.length + (p :: pr).length) = rest := by
    rw [hsplit]
    exact List.drop_left' (by simp)
  show String.mk ((a ++ p :: (pr ++ rest)).take a.length ++ repl.data
      ++ (a ++ p :: (pr ++ rest)).drop (a.length + (p :: pr).length))
    = String.mk (a ++ repl.data ++ rest)
  rw [htake, hdrop]

/-- Replacing a pattern whose head character does not occur at all is the
identity. -/
theorem replaceFirst_no_occurrence (s pat repl : String) (p : Char) (pr : List Char)
    (hpat : pat.data = p :: pr) (h : ∀ c ∈ s.data, c ≠ p) :
    replaceFirst s pat repl = s := by
  unfold replaceFirst
  rw [hpat, firstIndexOf_not_head p pr s.data h]

/-- A valid JavaScript Date as observed through its local-time getters:
getFullYear, getMonth (0-based), getDate, getHours, getMinutes,
getSeconds. -/
structure JSDate where
  year : Nat
  month0 : Nat
  day : Nat
  hours : Nat
  minutes : Nat
  seconds : Nat
deriving DecidableEq, Repr

/-- String(x).padStart(2, "0") for the numeric date components: a single
decimal digit gets one leading zero, anything else is unchanged. -/
def pad2 (n : Nat) : String :=
  if n < 10 then "0" ++ toString n else toString n

/-- formatDate (NunjucksRenderer.ts lines 179-194): literal token
substitution of YYYY, MM, DD, HH, mm, ss in that order, each via a
first-occurrence String.prototype.replace; four components zero-padded to
two digits, the year stringified without padding. -/
def formatDate (date : JSDate) (format : String) : String :=
  let year := toString date.year
  let month := pad2 (date.month0 + 1)
  let day := pad2 date.day
  let hours := pad2 date.hours
  let minutes := pad2 date.minutes
  let seconds := pad2 date.seconds
  replaceFirst (replaceFirst (replaceFirst (replaceFirst (replaceFirst
    (replaceFirst format ("YYYY") year) ("MM") month) ("DD") day)
    ("HH") hours) ("mm") minutes) ("ss") seconds

/-- The values the date filter can receive in this model: null, undefined,
a native (valid) Date, or a string.  (Strings model the
`new Date(String(value))` coercion path; the empty string is the falsy
string.) -/
inductive DateInput where
  | vNull
  | vUndefined
  | vDate (d : JSDate)
  | vStr (s : String)
deriving DecidableEq, Repr

/-- The date filter (NunjucksRenderer.ts lines 112-119).  `parseDate`
abstracts the JavaScript `new Date(string)` parser: none models an invalid
date (NaN time value).  Falsy input (null, undefined, empty string) gives
the empty string; an unparseable string falls back to the original value's
string form; a valid date is formatted. -/
def dateFilter (parseDate : String → Option JSDate) (value : DateInput)
    (format : String) : String :=
  match value with
  | DateInput.vNull => ""
  | DateInput.vUndefined => ""
  | DateInput.vDate d => formatDate d format
  | DateInput.vStr s =>
    if s = "" then ""
    else
      match parseDate s with
      | some d => formatDate d format
      | none => s

theorem digitChar_isDigit : ∀ m, m < 10 → (Nat.digitChar m).isDigit = true := by
  decide

theorem toDigitsCore_digits (fuel : Nat) : ∀ (n : Nat) (ds : List Char),
    (∀ c ∈ ds, c.isDigit = true) →
    ∀ c ∈ Nat.toDigitsCore 10 fuel n ds, c.isDigit = true := by
  induction fuel with
  | zero =>
    intro n ds h c hc
    simp only [Nat.toDigitsCore] at hc
    exact h c hc
  | succ f ih =>
    intro n ds h c hc
    simp only [Nat.toDigitsCore] at hc
    have hdig : (Nat.digitChar (n % 10)).isDigit = true :=
      digitChar_isDigit (n % 10) (Nat.mod_lt n (by decide))
    by_cases hz : n / 10 = 0
    · rw [if_pos hz] at hc
      rcases List.mem_cons.mp hc with h1 | h2
      · rw [h1]; exact hdig
      · exact h c h2
    · rw [if_neg hz] at hc
      refine ih (n / 10) (Nat.digitChar (n % 10) :: ds) ?_ c hc
      intro x hx
      rcases List.mem_cons.mp hx with h1 | h2
      · rw [h1]; exact hdig
      · exact h x h2

theorem natToString_data_isDigit (n : Nat) :
    ∀ c ∈ (toString n).data, c.isDigit = true := by
  intro c hc
  have h2 : (toString n).data = Nat.toDigitsCore 10 (n + 1) n [] := by
    show (Nat.repr n).data = _
    simp [Nat.repr, Nat.toDigits, List.asString]
  rw [h2] at hc
  exact toDigitsCore_digits (n + 1) n [] (by intro x hx; cases hx) c hc

theorem pad2_data_isDigit (n : Nat) : ∀ c ∈ (pad2 n).data, c.isDigit = true := by
  intro c hc
  unfold pad2 at hc
  by_cases h : n < 10
  · rw [if_pos h, String.data_append] at hc
    rcases List.mem_append.mp hc with h1 | h2
    · have hzero : c = '0' := by simpa using h1
      rw [hzero]; decide
    · exact natToString_data_isDigit n c h2
  · rw [if_neg h] at hc
    exact natToString_data_isDigit n c hc

theorem isDigit_ne (c x : Char) (hc : c.isDigit = true) (hx : x.isDigit = false) :
    c ≠ x := by
  intro hcx
  rw [hcx, hx] at hc
  cases hc

theorem formatDate_ymd (d : JSDate) :
    formatDate d ("YYYY-MM-DD")
      = toString d.year ++ "-" ++ pad2 (d.month0 + 1) ++ "-" ++ pad2 d.day := by
  have hy := natToString_data_isDigit d.year
  have hmo := pad2_data_isDigit (d.month0 + 1)
  have hdy := pad2_data_isDigit d.day
  have ha2 : ∀ c ∈ (toString d.year).data ++ ('-' :: []), c.isDigit = true ∨ c = '-' := by
    intro c hc
    rcases List.mem_append.mp hc with h1 | h2
    · exact Or.inl (hy c h1)
    · exact Or.inr (by simpa using h2)
  have ha3 : ∀ c ∈ ((toString d.year).data ++ ('-' :: []))
      ++ ((pad2 (d.month0 + 1)).data ++ ('-' :: [])), c.isDigit = true ∨ c = '-' := by
    intro c hc
    rcases List.mem_append.mp hc with h1 | h2
    · exact ha2 c h1
    · rcases List.mem_append.mp h2 with h3 | h4
      · exact Or.inl (hmo c h3)
      · exact Or.inr (by simpa using h4)
  have hfin : ∀ c ∈ (((toString d.year).data ++ ('-' :: []))
      ++ ((pad2 (d.month0 + 1)).data ++ ('-' :: []))) ++ ((pad2 d.day).data ++ []),
      c.isDigit = true ∨ c = '-' := by
    intro c hc
    rcases List.mem_append.mp hc with h1 | h2
    · exact ha3 c h1
    · rcases List.mem_append.mp h2 with h3 | h4
      · exact Or.inl (hdy c h3)
      · cases h4
  have step1 : replaceFirst ("YYYY-MM-DD") ("YYYY") (toString d.year)
      = String.mk ([] ++ (toString d.year).data
          ++ ('-' :: 'M' :: 'M' :: '-' :: 'D' :: 'D' :: [])) :=
    replaceFirst_at_marker ("YYYY-MM-DD") ("YYYY") (toString d.year)
      [] ('Y') ('Y' :: 'Y' :: 'Y' :: []) ('-' :: 'M' :: 'M' :: '-' :: 'D' :: 'D' :: [])
      (by rfl) (by rfl) (by intro c hc; cases hc)
  have step2 : replaceFirst (String.mk ([] ++ (toString d.year).data
          ++ ('-' :: 'M' :: 'M' :: '-' :: 'D' :: 'D' :: []))) ("MM") (pad2 (d.month0 + 1))
      = String.mk (((toString d.year).data ++ ('-' :: []))
          ++ (pad2 (d.month0 + 1)).data ++ ('-' :: 'D' :: 'D' :: [])) := by
    apply replaceFirst_at_marker _ _ _ ((toString d.year).data ++ ('-' :: []))
      ('M') ('M' :: []) ('-' :: 'D' :: 'D' :: [])
    · show [] ++ (toString d.year).data ++ ('-' :: 'M' :: 'M' :: '-' :: 'D' :: 'D' :: []) = _
      simp
    · rfl
    · intro c hc
      rcases ha2 c hc with hd | hh
      · exact isDigit_ne c ('M') hd (by decide)
      · rw [hh]; decide
  have step3 : replaceFirst (String.mk (((toString d.year).data ++ ('-' :: []))
          ++ (pad2 (d.month0 + 1)).data ++ ('-' :: 'D' :: 'D' :: []))) ("DD") (pad2 d.day)
      = String.mk ((((toString d.year).data ++ ('-' :: []))
          ++ ((pad2 (d.month0 + 1)).data ++ ('-' :: []))) ++ (pad2 d.day).data ++ []) := by
    apply replaceFirst_at_marker _ _ _ (((toString d.year).data ++ ('-' :: []))
      ++ ((pad2 (d.month0 + 1)).data ++ ('-' :: []))) ('D') ('D' :: []) []
    · show ((toString d.year).data ++ ('-' :: []))
          ++ (pad2 (d.month0 + 1)).data ++ ('-' :: 'D' :: 'D' :: []) = _
      simp
    · rfl
    · intro c hc
      rcases ha3 c hc with hd | hh
      · exact isDigit_ne c ('D') hd (by decide)
      · rw [hh]; decide
  have hnoH : ∀ c ∈ (String.mk ((((toString d.year).data ++ ('-' :: []))
      ++ ((pad2 (d.month0 + 1)).data ++ ('-' :: []))) ++ ((pad2 d.day).data ++ []))).data,
      c ≠ 'H' := by
    intro c hc
    rcases hfin c hc with hd | hh
    · exact isDigit_ne c ('H') hd (by decide)
    · rw [hh]; decide
  have hnom : ∀ c ∈ (String.mk ((((toString d.year).data ++ ('-' :: []))
      ++ ((pad2 (d.month0 + 1)).data ++ ('-' :: []))) ++ ((pad2 d.day).data ++ []))).data,
      c ≠ 'm' := by
    intro c hc
    rcases hfin c hc with hd | hh
    · exact isDigit_ne c ('m') hd (by decide)
    · rw [hh]; decide
  have hnos : ∀ c ∈ (String.mk ((((toString d.year).data ++ ('-' :: []))
      ++ ((pad2 (d.month0 + 1)).data ++ ('-' :: []))) ++ ((pad2 d.day).data ++ []))).data,
      c ≠ 's' := by
    intro c hc
    rcases hfin c hc with hd | hh
    · exact isDigit_ne c ('s') hd (by decide)
    · rw [hh]; decide
  have step4 := replaceFirst_no_occurrence
    (String.mk ((((toString d.year).data ++ ('-' :: []))
      ++ ((pad2 (d.month0 + 1)).data ++ ('-' :: []))) ++ ((pad2 d.day).data ++ [])))
    ("HH") (pad2 d.hours) ('H') ('H' :: []) rfl hnoH
  have step5 := replaceFirst_no_occurrence
    (String.mk ((((toString d.year).data ++ ('-' :: []))
      ++ ((pad2 (d.month0 + 1)).data ++ ('-' :: []))) ++ ((pad2 d.day).data ++ [])))
    ("mm") (pad2 d.minutes) ('m') ('m' :: []) rfl hnom
  have step6 := replaceFirst_no_occurrence
    (String.mk ((((toString d.year).data ++ ('-' :: []))
      ++ ((pad2 (d.month0 + 1)).data ++ ('-' :: []))) ++ ((pad2 d.day).data ++ [])))
    ("ss") (pad2 d.seconds) ('s') ('s' :: []) rfl hnos
  have hstep3' : replaceFirst (String.mk (((toString d.year).data ++ ('-' :: []))
          ++ (pad2 (d.month0 + 1)).data ++ ('-' :: 'D' :: 'D' :: []))) ("DD") (pad2 d.day)
      = String.mk ((((toString d.year).data ++ ('-' :: []))
          ++ ((pad2 (d.month0 + 1)).data ++ ('-' :: []))) ++ ((pad2 d.day).data ++ [])) := by
    rw [step3]
    congr 1
    simp
  show replaceFirst (replaceFirst (replaceFirst (replaceFirst (replaceFirst
    (replaceFirst ("YYYY-MM-DD") ("YYYY") (toString d.year)) ("MM") (pad2 (d.month0 + 1)))
    ("DD") (pad2 d.day)) ("HH") (pad2 d.hours)) ("mm") (pad2 d.minutes)) ("ss") (pad2 d.seconds)
    = toString d.year ++ "-" ++ pad2 (d.month0 + 1) ++ "-" ++ pad2 d.day
  rw [step1, step2, hstep3', step4, step5, step6]
  have hdata : (((toString d.year).data ++ ('-' :: []))
      ++ ((pad2 (d.month0 + 1)).data ++ ('-' :: []))) ++ ((pad2 d.day).data ++ [])
      = (toString d.year ++ "-" ++ pad2 (d.month0 + 1) ++ "-" ++ pad2 d.day).data := by
    simp [String.data_append, show ("-" : String).data = '-' :: [] from rfl]
  rw [hdata]

/-- C4 counterexample: for the valid date year 50, month January, day 5,
the date filter renders "50-01-05" — the year is the unpadded decimal
String(getFullYear()), not a four-digit year, so the output of the format
"YYYY-MM-DD" has length 8 instead of the length 10 that a four-digit year
with two-digit month and day would give. -/
theorem dateFilter_year_counterexample :
    dateFilter (fun _ => none) (DateInput.vDate ⟨50, 0, 5, 0, 0, 0⟩) ("YYYY-MM-DD")
      = "50-01-05" ∧
    ("50-01-05" : String).length ≠ 10 := by
  constructor
  · rfl
  · decide

/-- C4 amended: the date filter returns the empty string for null/undefined
input; a string that does not coerce to a valid date is returned as-is; a
valid date is formatted by literal token substitution, each token replaced
at most once in the fixed scan order YYYY, MM, DD, HH, mm, ss, with
zero-padded two-digit month/day/hour/minute/second components and the
year's UNPADDED decimal digits (four digits only for years 1000-9999); in
particular the format "YYYY-MM-DD" yields year-"-"-month-"-"-day, and
date(new Date(2024,0,5), "YYYY-MM-DD") = "2024-01-05". -/
theorem dateFilter_spec (parseDate : String → Option JSDate) (format : String)
    (s : String) (d d' : JSDate) :
    dateFilter parseDate DateInput.vNull format = "" ∧
    dateFilter parseDate DateInput.vUndefined format = "" ∧
    (s ≠ "" → parseDate s = none →
      dateFilter parseDate (DateInput.vStr s) format = s) ∧
    (s ≠ "" → parseDate s = some d' →
      dateFilter parseDate (DateInput.vStr s) format = formatDate d' format) ∧
    dateFilter parseDate (DateInput.vDate d) ("YYYY-MM-DD")
      = toString d.year ++ "-" ++ pad2 (d.month0 + 1) ++ "-" ++ pad2 d.day ∧
    dateFilter parseDate (DateInput.vDate ⟨2024, 0, 5, 0, 0, 0⟩) ("YYYY-MM-DD")
      = "2024-01-05" := by
  refine ⟨rfl, rfl, ?_, ?_, ?_, ?_⟩
  · intro hs hparse
    simp [dateFilter, hs, hparse]
  · intro hs hparse
    simp [dateFilter, hs, hparse]
  · show formatDate d ("YYYY-MM-DD") = _
    exact formatDate_ymd d
  · rfl

theorem dateFilter_spec_witness :
    ("not-a-date" : String) ≠ "" ∧
    dateFilter (fun _ => none) (DateInput.vStr ("not-a-date")) ("YYYY-MM-DD")
      = "not-a-date" :=
  ⟨by decide,
   (dateFilter_spec (fun _ => none) ("YYYY-MM-DD") ("not-a-date")
     ⟨2024, 0, 5, 0, 0, 0⟩ ⟨2024, 0, 5, 0, 0, 0⟩).2.2.1 (by decide) rfl⟩

/-- Severity of a validation record (src/src/types, ValidationError). -/
inductive Severity where
  | error
  | warning
deriving DecidableEq, Repr

/-- A validation record: field path, message, optional severity (the
structural checks of validateTemplate push records without a severity). -/
structure ValidationError where
  field : String
  message : String
  severity : Option Severity
deriving DecidableEq, Repr

/-- A validation result (src/src/types, ValidationResult). -/
structure ValidationResult where
  valid : Bool
  errors : List ValidationError
deriving DecidableEq, Repr

/-- Template metadata (src/src/types, TemplateMetadata); an empty string
models a missing/empty (falsy) name or version. -/
structure TemplateMetadata where
  name : String
  version : String
  description : Option String
deriving DecidableEq, Repr

/-- A global binding (src/src/types, GlobalConfig). -/
structure GlobalConfig where
  name : String
  type : Option String
  defaultValue : Option JSValue
deriving DecidableEq, Repr

/-- A table binding (src/src/types, TableConfig). -/
structure TableConfig where
  name : String
  columnMap : Option (List (String × String))
  valueMappings : Option (List ValueMapping)
deriving DecidableEq, Repr

/-- The top-level template (src/src/types, AddInTemplate); metadata is an
Option because the validator reads it through optional chaining; outputs
keep Object.entries order as a key-config list. -/
structure AddInTemplate where
  metadata : Option TemplateMetadata
  tables : List TableConfig
  globals : Option (List GlobalConfig)
  outputs : List (String × OutputConfig)
deriving DecidableEq, Repr

/-- template.metadata?.name, with "" for a missing metadata object. -/
def metadataName (template : AddInTemplate) : String :=
  match template.metadata with
  | none => ""
  | some m => m.name

/-- template.metadata?.version, with "" for a missing metadata object. -/
def metadataVersion (template : AddInTemplate) : String :=
  match template.metadata with
  | none => ""
  | some m => m.version

/-- The per-table forEach of validateTemplate (DataOrchestrator.ts lines
44-51): one record for every table whose name is empty, the field path
carrying the index. -/
def tableNameErrors : Nat → List TableConfig → List ValidationError
  | _, [] => []
  | i, config :: rest =>
    (if config.name = "" then
      [⟨"tables[" ++ toString i ++ "].name", "Table name is required", none⟩]
     else [])
    ++ tableNameErrors (i + 1) rest

/-- The per-output loop of validateTemplate (DataOrchestrator.ts lines
58-71): up to two records per output. -/
def outputFieldErrors : List (String × OutputConfig) → List ValidationError
  | [] => []
  | (name, output) :: rest =>
    (if output.template = "" then
      [⟨"outputs." ++ name ++ ".template", "Template content is required", none⟩]
     else [])
    ++ (if output.filename = "" then
      [⟨"outputs." ++ name ++ ".filename", "Filename is required", none⟩]
     else [])
    ++ outputFieldErrors rest

/-- validateTemplate (DataOrchestrator.ts lines 29-78): all structural
checks run, their records concatenated in source order; valid iff the
record list is empty. -/
def validateTemplate (template : AddInTemplate) : ValidationResult :=
  let errors :=
    (if metadataName template = "" then
      [⟨"metadata.name", "Template name is required", none⟩] else [])
    ++ (if metadataVersion template = "" then
      [⟨"metadata.version", "Template version is required", none⟩] else [])
    ++ (if template.tables.isEmpty then
      [⟨"tables", "At least one table mapping is required", none⟩]
      else tableNameErrors 0 template.tables)
    ++ (if template.outputs.isEmpty then
      [⟨"outputs", "At least one output is required", none⟩]
      else outputFieldErrors template.outputs)
  ⟨errors.isEmpty, errors⟩

/-- The table loop of validateDataAvailability (DataOrchestrator.ts lines
93-101): an error-severity record per declared table missing from the
host's table list. -/
def tableAvailabilityErrors (tableNames : List String) :
    List TableConfig → List ValidationError
  | [] => []
  | config :: rest =>
    (if tableNames.contains config.name then []
     else [⟨"tables." ++ config.name,
            "Excel Table \"" ++ config.name ++ "\" not found in workbook",
            some Severity.error⟩])
    ++ tableAvailabilityErrors tableNames rest

/-- The globals loop of validateDataAvailability (DataOrchestrator.ts lines
104-117): a warning-severity record per declared global missing from the
host's named ranges. -/
def globalAvailabilityErrors (rangeNames : List String) :
    List GlobalConfig → List ValidationError
  | [] => []
  | config :: rest =>
    (if rangeNames.contains config.name then []
     else [⟨"globals." ++ config.name,
            "Named Range \"" ++ config.name ++ "\" not found. Will use default value.",
            some Severity.warning⟩])
    ++ globalAvailabilityErrors rangeNames rest

/-- validateDataAvailability (DataOrchestrator.ts lines 86-123).  The two
String lists are the table names and named-range names the host reports
(the awaited tableService/globalsService results).  Valid iff no record
with severity other than warning exists. -/
def validateDataAvailability (tableNames rangeNames : List String)
    (template : AddInTemplate) : ValidationResult :=
  let errors := tableAvailabilityErrors tableNames template.tables
    ++ (match template.globals with
        | some gs => globalAvailabilityErrors rangeNames gs
        | none => [])
  ⟨(errors.filter (fun e => decide (e.severity ≠ some Severity.warning))).isEmpty, errors⟩

/-- previewOutput (DataOrchestrator.ts lines 180-189).  The host-dependent
buildContext call is abstracted by the `context` parameter (its awaited
result); a missing output key returns the null sentinel before any context
build or render. -/
def previewOutput (env : Env) (context : TemplateContext) (template : AddInTemplate)
    (outputName : String) : Option (Except String RenderedOutput) :=
  match lookupAssoc template.outputs outputName with
  | none => none
  | some output => some (renderOutput env output context)

theorem tableNameErrors_nil (l : List TableConfig) (h : ∀ c ∈ l, c.name ≠ "") :
    ∀ i, tableNameErrors i l = [] := by
  induction l with
  | nil => intro i; rfl
  | cons c rest ih =>
    intro i
    have hc : c.name ≠ "" := h c (List.mem_cons_self c rest)
    simp only [tableNameErrors, hc, if_false, List.nil_append]
    exact ih (fun x hx => h x (List.mem_cons_of_mem _ hx)) (i + 1)

theorem tableAvailabilityErrors_mem (tableNames : List String)
    (l : List TableConfig) (c : TableConfig) (hc : c ∈ l)
    (hmiss : tableNames.contains c.name = false) :
    (⟨"tables." ++ c.name,
      "Excel Table \"" ++ c.name ++ "\" not found in workbook",
      some Severity.error⟩ : ValidationError) ∈ tableAvailabilityErrors tableNames l := by
  induction l with
  | nil => cases hc
  | cons q rest ih =>
    rcases List.mem_cons.mp hc with h1 | h2
    · subst h1
      unfold tableAvailabilityErrors
      rw [hmiss]
      simp
    · unfold tableAvailabilityErrors
      exact List.mem_append.mpr (Or.inr (ih h2))

theorem tableAvailabilityErrors_severity (tableNames : List String)
    (l : List TableConfig) :
    ∀ e ∈ tableAvailabilityErrors tableNames l, e.severity = some Severity.error := by
  induction l with
  | nil => intro e he; cases he
  | cons q rest ih =>
    intro e he
    unfold tableAvailabilityErrors at he
    rcases List.mem_append.mp he with h1 | h2
    · by_cases hq : tableNames.contains q.name
      · rw [if_pos hq] at h1; cases h1
      · rw [if_neg hq] at h1
        have : e = ⟨"tables." ++ q.name,
          "Excel Table \"" ++ q.name ++ "\" not found in workbook",
          some Severity.error⟩ := by simpa using h1
        rw [this]
    · exact ih e h2

theorem globalAvailabilityErrors_mem (rangeNames : List String)
    (l : List GlobalConfig) (g : GlobalConfig) (hg : g ∈ l)
    (hmiss : rangeNames.contains g.name = false) :
    (⟨"globals." ++ g.name,
      "Named Range \"" ++ g.name ++ "\" not found. Will use default value.",
      some Severity.warning⟩ : ValidationError) ∈ globalAvailabilityErrors rangeNames l := by
  induction l with
  | nil => cases hg
  | cons q rest ih =>
    rcases List.mem_cons.mp hg with h1 | h2
    · subst h1
      unfold globalAvailabilityErrors
      rw [hmiss]
      simp
    · unfold globalAvailabilityErrors
      exact List.mem_append.mpr (Or.inr (ih h2))

theorem globalAvailabilityErrors_severity (rangeNames : List String)
    (l : List GlobalConfig) :
    ∀ e ∈ globalAvailabilityErrors rangeNames l, e.severity = some Severity.warning := by
  induction l with
  | nil => intro e he; cases he
  | cons q rest ih =>
    intro e he
    unfold globalAvailabilityErrors at he
    rcases List.mem_append.mp he with h1 | h2
    · by_cases hq : rangeNames.contains q.name
      · rw [if_pos hq] at h1; cases h1
      · rw [if_neg hq] at h1
        have : e = ⟨"globals." ++ q.name,
          "Named Range \"" ++ q.name ++ "\" not found. Will use default value.",
          some Severity.warning⟩ := by simpa using h1
        rw [this]
    · exact ih e h2

theorem validateDataAvailability_severities (tableNames rangeNames : List String)
    (template : AddInTemplate) :
    ∀ e ∈ (validateDataAvailability tableNames rangeNames template).errors,
      e.severity = some Severity.error ∨ e.severity = some Severity.warning := by
  intro e he
  unfold validateDataAvailability at he
  simp only at he
  rcases List.mem_append.mp he with h1 | h2
  · exact Or.inl (tableAvailabilityErrors_severity tableNames template.tables e h1)
  · cases hgs : template.globals with
    | none => rw [hgs] at h2; cases h2
    | some gs =>
      rw [hgs] at h2
      exact Or.inr (globalAvailabilityErrors_severity rangeNames gs e h2)

/-- C8: validateDataAvailability emits an error-severity record for every
declared table binding missing from the host's available tables and a
warning-severity record for every declared global missing from the host's
named values; the valid flag is true exactly when no error-severity record
exists (warnings never affect validity), and any missing table forces
valid = false. -/
theorem validateDataAvailability_spec (tableNames rangeNames : List String)
    (template : AddInTemplate) :
    (∀ c ∈ template.tables, tableNames.contains c.name = false →
      (⟨"tables." ++ c.name,
        "Excel Table \"" ++ c.name ++ "\" not found in workbook",
        some Severity.error⟩ : ValidationError)
        ∈ (validateDataAvailability tableNames rangeNames template).errors) ∧
    (∀ gs, template.globals = some gs →
      ∀ g ∈ gs, rangeNames.contains g.name = false →
      (⟨"globals." ++ g.name,
        "Named Range \"" ++ g.name ++ "\" not found. Will use default value.",
        some Severity.warning⟩ : ValidationError)
        ∈ (validateDataAvailability tableNames rangeNames template).errors) ∧
    ((validateDataAvailability tableNames rangeNames template).valid = true ↔
      ∀ e ∈ (validateDataAvailability tableNames rangeNames template).errors,
        e.severity ≠ some Severity.error) ∧
    ((∃ c ∈ template.tables, tableNames.contains c.name = false) →
      (validateDataAvailability tableNames rangeNames template).valid = false) := by
  have herrs : (validateDataAvailability tableNames rangeNames template).errors
      = tableAvailabilityErrors tableNames template.tables
        ++ (match template.globals with
            | some gs => globalAvailabilityErrors rangeNames gs
            | none => []) := rfl
  have hvalid : (validateDataAvailability tableNames rangeNames template).valid
      = ((validateDataAvailability tableNames rangeNames template).errors.filter
          (fun e => decide (e.severity ≠ some Severity.warning))).isEmpty := rfl
  have hmemT : ∀ c ∈ template.tables, tableNames.contains c.name = false →
      (⟨"tables." ++ c.name,
        "Excel Table \"" ++ c.name ++ "\" not found in workbook",
        some Severity.error⟩ : ValidationError)
        ∈ (validateDataAvailability tableNames rangeNames template).errors := by
    intro c hc hmiss
    rw [herrs]
    exact List.mem_append.mpr
      (Or.inl (tableAvailabilityErrors_mem tableNames template.tables c hc hmiss))
  have hiff : (validateDataAvailability tableNames rangeNames template).valid = true ↔
      ∀ e ∈ (validateDataAvailability tableNames rangeNames template).errors,
        e.severity ≠ some Severity.error := by
    rw [hvalid, List.isEmpty_iff, List.filter_eq_nil]
    constructor
    · intro h e he hsev
      have h2 := h e he
      simp only [decide_eq_true_eq, Decidable.not_not] at h2
      rw [hsev] at h2
      cases h2
    · intro h e he
      simp only [decide_eq_true_eq, Decidable.not_not]
      rcases validateDataAvailability_severities tableNames rangeNames template e he
        with h1 | h2
      · exact absurd h1 (h e he)
      · exact h2
  refine ⟨hmemT, ?_, hiff, ?_⟩
  · intro gs hgs g hg hmiss
    rw [herrs, hgs]
    exact List.mem_append.mpr
      (Or.inr (globalAvailabilityErrors_mem rangeNames gs g hg hmiss))
  · intro hex
    obtain ⟨c, hc, hmiss⟩ := hex
    cases hval : (validateDataAvailability tableNames rangeNames template).valid with
    | false => rfl
    | true =>
      have h2 := hiff.mp hval _ (hmemT c hc hmiss)
      simp at h2

/-- A template with one missing table and one missing global for the C8
witness. -/
def tmplW8 : AddInTemplate :=
  ⟨some ⟨("Test"), ("1.0"), none⟩, [⟨("Missing"), none, none⟩],
   some [⟨("G"), none, none⟩], [(("a"), outGood)]⟩

theorem validateDataAvailability_spec_witness :
    (⟨"tables." ++ "Missing",
      "Excel Table \"" ++ "Missing" ++ "\" not found in workbook",
      some Severity.error⟩ : ValidationError)
      ∈ (validateDataAvailability [("Present")] [] tmplW8).errors ∧
    (⟨"globals." ++ "G",
      "Named Range \"" ++ "G" ++ "\" not found. Will use default value.",
      some Severity.warning⟩ : ValidationError)
      ∈ (validateDataAvailability [("Present")] [] tmplW8).errors ∧
    (validateDataAvailability [("Present")] [] tmplW8).valid = false :=
  ⟨(validateDataAvailability_spec [("Present")] [] tmplW8).1
     ⟨("Missing"), none, none⟩ (by decide) (by decide),
   (validateDataAvailability_spec [("Present")] [] tmplW8).2.1
     [⟨("G"), none, none⟩] rfl ⟨("G"), none, none⟩ (by decide) (by decide),
   (validateDataAvailability_spec [("Present")] [] tmplW8).2.2.2
     ⟨⟨("Missing"), none, none⟩, by decide, by decide⟩⟩

/-- C9: validateTemplate runs all structural checks without
short-circuiting: a missing version always contributes its record, an
empty outputs map always contributes its record, validity is equivalent to
the record list being empty, and on a template whose only problems are a
missing metadata.version and zero outputs the result is valid = false with
exactly those two error records. -/
theorem validateTemplate_spec (template : AddInTemplate) :
    (metadataVersion template = "" →
      (⟨"metadata.version", "Template version is required", none⟩ : ValidationError)
        ∈ (validateTemplate template).errors) ∧
    (template.outputs = [] →
      (⟨"outputs", "At least one output is required", none⟩ : ValidationError)
        ∈ (validateTemplate template).errors) ∧
    ((validateTemplate template).valid = true ↔ (validateTemplate template).errors = []) ∧
    (metadataName template ≠ "" → template.tables ≠ [] →
      (∀ c ∈ template.tables, c.name ≠ "") →
      metadataVersion template = "" → template.outputs = [] →
      validateTemplate template
        = ⟨false, [⟨"metadata.version", "Template version is required", none⟩,
                   ⟨"outputs", "At least one output is required", none⟩]⟩) := by
  refine ⟨?_, ?_, ?_, ?_⟩
  · intro hv
    simp [validateTemplate, hv]
  · intro ho
    simp [validateTemplate, ho]
  · simp [validateTemplate, List.isEmpty_iff]
  · intro hn ht htn hv ho
    have hte : template.tables.isEmpty = false := by
      simp [List.isEmpty_iff, ht]
    have h1 : tableNameErrors 0 template.tables = [] := tableNameErrors_nil template.tables htn 0
    simp [validateTemplate, hn, hv, ho, hte, h1]

/-- A template missing only metadata.version and outputs, for the C9
witness. -/
def tmplW9 : AddInTemplate :=
  ⟨some ⟨("Test"), (""), none⟩, [⟨("T"), none, none⟩], none, []⟩

theorem validateTemplate_spec_witness :
    validateTemplate tmplW9
      = ⟨false, [⟨"metadata.version", "Template version is required", none⟩,
                 ⟨"outputs", "At least one output is required", none⟩]⟩ :=
  (validateTemplate_spec tmplW9).2.2.2 (by decide) (by decide) (by decide) rfl rfl

/-- C10: previewOutput returns the null sentinel, without rendering, when
the output key is absent; when the key is present it returns exactly the
renderOutput result, whose name on success is the resolved filename (never
overwritten with the output key, unlike renderAllOutputs). -/
theorem previewOutput_spec (env : Env) (context : TemplateContext)
    (template : AddInTemplate) (outputName : String) :
    (lookupAssoc template.outputs outputName = none →
      previewOutput env context template outputName = none) ∧
    (∀ output, lookupAssoc template.outputs outputName = some output →
      previewOutput env context template outputName
        = some (renderOutput env output context) ∧
      ∀ r, renderOutput env output context = Except.ok r →
        r.name = r.filename ∧
        resolveFilename env output.filename context = Except.ok r.filename) := by
  constructor
  · intro h
    unfold previewOutput
    rw [h]
  · intro output hout
    constructor
    · unfold previewOutput
      rw [hout]
    · intro r hr
      unfold renderOutput at hr
      cases hf : resolveFilename env output.filename context with
      | error e =>
        rw [hf] at hr
        simp [Bind.bind, Except.bind] at hr
      | ok fn =>
        rw [hf] at hr
        cases hc : render env output.template context with
        | error e =>
          rw [hc] at hr
          simp [Bind.bind, Except.bind] at hr
        | ok content =>
          rw [hc] at hr
          simp only [Bind.bind, Except.bind, pure, Except.pure] at hr
          cases hr
          exact ⟨rfl, rfl⟩

/-- A template whose outputs hold the key "a", for the C10 witness. -/
def tmplW10 : AddInTemplate :=
  ⟨some ⟨("Test"), ("1.0"), none⟩, [⟨("t1"), none, none⟩], none, [(("a"), outGood)]⟩

theorem previewOutput_spec_witness :
    previewOutput envW ctxW tmplW10 ("a") = some (renderOutput envW outGood ctxW) ∧
    previewOutput envW ctxW tmplW10 ("missing") = none :=
  ⟨((previewOutput_spec envW ctxW tmplW10 ("a")).2 outGood (by decide)).1,
   (previewOutput_spec envW ctxW tmplW10 ("missing")).1 (by decide)⟩
